import Mathlib

/-!
Shallow embedding of the MindSimulator training script
(src/Codes/mindeye2_src/Train.py): the epoch batch-preloading loop, the
mixup corruption step, the staged contrastive-loss regime switch, the
checkpoint save/load pair, and the repeat-averaged evaluation pass.
Machine floats are modelled by exact rationals.
-/

namespace MindEye2

/-- `np.unique(image_idx)` value part (Train.py line 546): the sorted list
of the distinct values of `xs`. -/
def npUniqueVals (xs : List ℕ) : List ℕ :=
  List.insertionSort (· ≤ ·) xs.dedup

/-- One fetched training batch of a subject stream: the per-trial image
indices `behav0[:, 0, 0]` and voxel row indices `behav0[:, 0, 5]`
(Train.py lines 545 and 554). -/
structure TrialBatch where
  imageIdx : List ℕ
  voxelIdx : List ℕ
deriving DecidableEq

/-- The retention test of the preloading loop (Train.py line 547): the
batch is kept iff `len(image0) == len(image_idx)`, i.e. the unique
image-index count equals the batch length. -/
def retainBatch (b : TrialBatch) : Bool :=
  (npUniqueVals b.imageIdx).length == b.imageIdx.length

/-- The per-subject preloading loop (Train.py lines 542-568): iterate the
fetched batches, `continue` past any batch failing the retention test,
store retained batches, and break once the per-epoch iteration quota is
met.  Returns the list of retained batches, in order. -/
def preloadBatches : ℕ → List TrialBatch → List TrialBatch
  | _, [] => []
  | quota, b :: rest =>
    if quota = 0 then []
    else if retainBatch b then b :: preloadBatches (quota - 1) rest
    else preloadBatches quota rest

/-- `np.unique(image_idx, return_index=True)` index part (Train.py line
546): for each sorted unique value, the position of its first occurrence
in the original batch. -/
def imageSortedIdx (b : TrialBatch) : List ℕ :=
  (npUniqueVals b.imageIdx).map (fun v => b.imageIdx.indexOf v)

/-- `voxel_sorted_idx = voxel_idx[image_sorted_idx]` (Train.py line 555):
the voxel row indices rearranged by the image sort permutation. -/
def voxelSortedIdx (b : TrialBatch) : List ℕ :=
  (imageSortedIdx b).map (fun k => b.voxelIdx.getD k 0)

/-- `image0 = torch.tensor(images[image0])` then stored into
`image_iters` (Train.py lines 550-551): the images of a retained batch
as the image store resolves them, fetched with the sorted unique index
set and stored in exactly that order. -/
def storedImages {α : Type} (istore : ℕ → α) (b : TrialBatch) : List α :=
  (npUniqueVals b.imageIdx).map istore

/-- `voxel0 = voxels[...][voxel_sorted_idx]` then stored into
`voxel_iters` (Train.py lines 556-565): the voxel rows of a retained
batch, rearranged by the image sort permutation. -/
def storedVoxels {β : Type} (vstore : ℕ → β) (b : TrialBatch) : List β :=
  (voxelSortedIdx b).map vstore

/-- Modelled from the spec: "images are resolved ... using the
deduplicated, sorted index set for I/O efficiency, then re-scattered
back into original order" — under re-scattering, slot `i` of the image
buffer would hold the image of `imageIdx[i]`, the batch's original
(pre-sort) order. -/
def storedImagesSpec {α : Type} (istore : ℕ → α) (b : TrialBatch) : List α :=
  b.imageIdx.map istore

theorem npUniqueVals_length (xs : List ℕ) :
    (npUniqueVals xs).length = xs.dedup.length :=
  (List.perm_insertionSort _ _).length_eq

theorem retainBatch_iff_nodup (b : TrialBatch) :
    retainBatch b = true ↔ b.imageIdx.Nodup := by
  unfold retainBatch
  rw [beq_iff_eq, npUniqueVals_length]
  constructor
  · intro h
    have hsub : b.imageIdx.dedup.Sublist b.imageIdx := List.dedup_sublist _
    have : b.imageIdx.dedup = b.imageIdx :=
      hsub.eq_of_length_le (le_of_eq h.symm)
    exact List.dedup_eq_self.mp this
  · intro h
    rw [h.dedup]

theorem mem_npUniqueVals {xs : List ℕ} {v : ℕ} :
    v ∈ npUniqueVals xs ↔ v ∈ xs := by
  unfold npUniqueVals
  rw [List.mem_insertionSort, List.mem_dedup]

theorem mem_of_mem_preloadBatches {quota : ℕ} {batches : List TrialBatch}
    {b : TrialBatch} (h : b ∈ preloadBatches quota batches) : b ∈ batches := by
  induction batches generalizing quota with
  | nil => simp [preloadBatches] at h
  | cons hd tl ih =>
    rw [preloadBatches] at h
    split at h
    · simp at h
    · split at h
      · rcases List.mem_cons.mp h with h1 | h1
        · exact h1 ▸ List.mem_cons_self _ _
        · exact List.mem_cons_of_mem _ (ih h1)
      · exact List.mem_cons_of_mem _ (ih h)

theorem retain_of_mem_preloadBatches {quota : ℕ} {batches : List TrialBatch}
    {b : TrialBatch} (h : b ∈ preloadBatches quota batches) :
    retainBatch b = true := by
  induction batches generalizing quota with
  | nil => simp [preloadBatches] at h
  | cons hd tl ih =>
    rw [preloadBatches] at h
    split at h
    · simp at h
    · split at h
      · rcases List.mem_cons.mp h with h1 | h1
        · subst h1; assumption
        · exact ih h1
      · exact ih h

/-- C1: every batch retained by the epoch preloading loop is one of the
fetched batches, kept whole, with pairwise-distinct image indices; and a
fetched batch in which any image index repeats is never retained — it is
skipped, not deduplicated-and-merged. -/
theorem retained_batches_nodup (quota : ℕ) (batches : List TrialBatch) :
    (∀ b ∈ preloadBatches quota batches, b ∈ batches ∧ b.imageIdx.Nodup) ∧
    (∀ b ∈ batches, ¬ b.imageIdx.Nodup →
      b ∉ preloadBatches quota batches) := by
  constructor
  · intro b hb
    exact ⟨mem_of_mem_preloadBatches hb,
      (retainBatch_iff_nodup b).mp (retain_of_mem_preloadBatches hb)⟩
  · intro b _ hdup hmem
    exact hdup ((retainBatch_iff_nodup b).mp (retain_of_mem_preloadBatches hmem))

/-- Witness for C1 at a concrete input: of the two fetched batches, the
one with image indices `[3, 3]` is discarded and the one with `[1, 2]`
is retained with distinct indices. -/
theorem retained_batches_nodup_witness :
    (∀ b ∈ preloadBatches 2 [⟨[1, 2], [0, 1]⟩, ⟨[3, 3], [2, 3]⟩],
        b ∈ [(⟨[1, 2], [0, 1]⟩ : TrialBatch), ⟨[3, 3], [2, 3]⟩] ∧
          b.imageIdx.Nodup) ∧
    (∀ b ∈ [(⟨[1, 2], [0, 1]⟩ : TrialBatch), ⟨[3, 3], [2, 3]⟩],
        ¬ b.imageIdx.Nodup →
        b ∉ preloadBatches 2 [⟨[1, 2], [0, 1]⟩, ⟨[3, 3], [2, 3]⟩]) :=
  retained_batches_nodup 2 [⟨[1, 2], [0, 1]⟩, ⟨[3, 3], [2, 3]⟩]

theorem mapGetD {α β : Type} (f : α → β) (l : List α) (i : ℕ)
    (h : i < l.length) (d : β) (d0 : α) :
    (l.map f).getD i d = f (l.getD i d0) := by
  rw [List.getD_eq_getElem _ _ (by simpa using h),
    List.getD_eq_getElem _ _ h, List.getElem_map]

theorem imageSortedIdx_spec (b : TrialBatch) (i : ℕ)
    (hi : i < (npUniqueVals b.imageIdx).length) :
    (imageSortedIdx b).getD i 0 < b.imageIdx.length ∧
    b.imageIdx.getD ((imageSortedIdx b).getD i 0) 0 =
      (npUniqueVals b.imageIdx).getD i 0 := by
  have hidx : (imageSortedIdx b).getD i 0 =
      b.imageIdx.indexOf ((npUniqueVals b.imageIdx).getD i 0) :=
    mapGetD _ _ i hi 0 0
  have hmem : (npUniqueVals b.imageIdx).getD i 0 ∈ b.imageIdx := by
    rw [List.getD_eq_getElem _ _ hi]
    exact mem_npUniqueVals.mp (List.getElem_mem _)
  have hlt : b.imageIdx.indexOf ((npUniqueVals b.imageIdx).getD i 0) <
      b.imageIdx.length := List.indexOf_lt_length.mpr hmem
  refine ⟨hidx ▸ hlt, ?_⟩
  rw [hidx, List.getD_eq_getElem _ _ hlt, List.getElem_indexOf hlt]

/-- C8 counterexample: for the fetched batch with image indices `[5, 2]`
(distinct, so it is retained), the epoch image buffer receives the
images in sorted index order `[2, 5]`, not re-scattered back into the
batch's original pre-sort order `[5, 2]` as the spec sentence states. -/
theorem stored_images_not_original_order_cex :
    storedImages (fun n => n) ⟨[5, 2], [10, 11]⟩ = [2, 5] ∧
    storedImagesSpec (fun n => n) ⟨[5, 2], [10, 11]⟩ = [5, 2] ∧
    storedImages (fun n => n) ⟨[5, 2], [10, 11]⟩ ≠
      storedImagesSpec (fun n => n) ⟨[5, 2], [10, 11]⟩ := by
  refine ⟨by decide, by decide, by decide⟩

/-- C8 amended: for every retained batch, the images are fetched from
the random-access image store using the deduplicated, sorted index set
and stored into the epoch image buffer in that sorted order (no
re-scatter into the original order occurs); the sorted set is a
permutation of the batch's original index list, and original position
`imageSortedIdx[i]` holds the index stored at slot `i`. -/
theorem stored_images_sorted_order {α : Type} (istore : ℕ → α)
    (b : TrialBatch) (hnodup : b.imageIdx.Nodup) :
    List.Sorted (· ≤ ·) (npUniqueVals b.imageIdx) ∧
    (npUniqueVals b.imageIdx).Perm b.imageIdx ∧
    storedImages istore b = (npUniqueVals b.imageIdx).map istore ∧
    ∀ i, i < (npUniqueVals b.imageIdx).length →
      b.imageIdx.getD ((imageSortedIdx b).getD i 0) 0 =
        (npUniqueVals b.imageIdx).getD i 0 := by
  refine ⟨List.sorted_insertionSort _ _, ?_, rfl, ?_⟩
  · unfold npUniqueVals
    rw [hnodup.dedup]
    exact List.perm_insertionSort _ _
  · intro i hi
    exact (imageSortedIdx_spec b i hi).2

/-- Witness for C8-amended at the retained batch with image indices
`[5, 2]`. -/
theorem stored_images_sorted_order_witness :
    List.Sorted (· ≤ ·) (npUniqueVals (⟨[5, 2], [10, 11]⟩ : TrialBatch).imageIdx) ∧
    (npUniqueVals (⟨[5, 2], [10, 11]⟩ : TrialBatch).imageIdx).Perm
      (⟨[5, 2], [10, 11]⟩ : TrialBatch).imageIdx ∧
    storedImages (fun n => n + 100) ⟨[5, 2], [10, 11]⟩ =
      (npUniqueVals (⟨[5, 2], [10, 11]⟩ : TrialBatch).imageIdx).map (fun n => n + 100) ∧
    ∀ i, i < (npUniqueVals (⟨[5, 2], [10, 11]⟩ : TrialBatch).imageIdx).length →
      (⟨[5, 2], [10, 11]⟩ : TrialBatch).imageIdx.getD
          ((imageSortedIdx ⟨[5, 2], [10, 11]⟩).getD i 0) 0 =
        (npUniqueVals (⟨[5, 2], [10, 11]⟩ : TrialBatch).imageIdx).getD i 0 :=
  stored_images_sorted_order (fun n => n + 100) ⟨[5, 2], [10, 11]⟩ (by decide)

/-- C9: pairing invariant of the preloaded buffers — for every retained
batch and every slot `i`, the image stored at slot `i` and the voxel row
stored at slot `i` come from one and the same original trial `j` (namely
`j = imageSortedIdx[i]`): both buffers were permuted by exactly the same
sort permutation, so the (voxel, image) correspondence of the trial
stream is preserved. -/
theorem preload_pairing_invariant {α β : Type} (istore : ℕ → α)
    (vstore : ℕ → β) (dI : α) (dV : β) (b : TrialBatch)
    (_hret : retainBatch b = true)
    (hlen : b.voxelIdx.length = b.imageIdx.length)
    (i : ℕ) (hi : i < (storedImages istore b).length) :
    ∃ j, j < b.imageIdx.length ∧ j < b.voxelIdx.length ∧
      (storedImages istore b).getD i dI = istore (b.imageIdx.getD j 0) ∧
      (storedVoxels vstore b).getD i dV = vstore (b.voxelIdx.getD j 0) := by
  have hi' : i < (npUniqueVals b.imageIdx).length := by
    simpa [storedImages] using hi
  obtain ⟨hj, hval⟩ := imageSortedIdx_spec b i hi'
  refine ⟨(imageSortedIdx b).getD i 0, hj, by omega, ?_, ?_⟩
  · rw [hval]
    exact mapGetD istore _ i hi' dI 0
  · have hi2 : i < (imageSortedIdx b).length := by
      simpa [imageSortedIdx] using hi'
    have h1 : (storedVoxels vstore b).getD i dV =
        vstore ((voxelSortedIdx b).getD i 0) :=
      mapGetD vstore _ i (by simpa [voxelSortedIdx, imageSortedIdx] using hi') dV 0
    rw [h1]
    have h2 : (voxelSortedIdx b).getD i 0 =
        b.voxelIdx.getD ((imageSortedIdx b).getD i 0) 0 :=
      mapGetD _ _ i hi2 0 0
    rw [h2]

/-- Witness for C9 at the retained batch with image indices `[5, 2]` and
voxel row indices `[10, 11]`, slot `i = 0`. -/
theorem preload_pairing_invariant_witness :
    ∃ j, j < (⟨[5, 2], [10, 11]⟩ : TrialBatch).imageIdx.length ∧
      j < (⟨[5, 2], [10, 11]⟩ : TrialBatch).voxelIdx.length ∧
      (storedImages (fun n => n) ⟨[5, 2], [10, 11]⟩).getD 0 0 =
        (fun n => n) ((⟨[5, 2], [10, 11]⟩ : TrialBatch).imageIdx.getD j 0) ∧
      (storedVoxels (fun n => n) ⟨[5, 2], [10, 11]⟩).getD 0 0 =
        (fun n => n) ((⟨[5, 2], [10, 11]⟩ : TrialBatch).voxelIdx.getD j 0) :=
  preload_pairing_invariant (fun n => n) (fun n => n) 0 0 ⟨[5, 2], [10, 11]⟩
    (by decide) (by decide) 0 (by decide)

/-- The mixup interpolation applied in the training iteration (Train.py
lines 637-641, identical in form to the voxel corruption of §4.2): for a
selected sample `i` the vector becomes
`x[i] * betas[i] + x[perm[i]] * (1 - betas[i])`; an unselected sample is
left unchanged.  `x` holds the pre-corruption rows (the shuffled copy is
taken before the in-place update). -/
def mixupCorrupt (d : ℕ) (x : ℕ → Fin d → ℚ) (perm : ℕ → ℕ)
    (betas : ℕ → ℚ) (select : ℕ → Bool) (i : ℕ) : Fin d → ℚ :=
  if select i then fun j => x i j * betas i + x (perm i) j * (1 - betas i)
  else x i

/-- C4: mixup corruption is the identity on samples whose permutation
target is themselves — if `perm[i] = i` the corrupted vector equals the
original, for every interpolation coefficient and whether or not `i` is
selected. -/
theorem mixup_identity_perm_fixpoint (d : ℕ) (x : ℕ → Fin d → ℚ)
    (perm : ℕ → ℕ) (betas : ℕ → ℚ) (select : ℕ → Bool) (i : ℕ)
    (h : perm i = i) :
    mixupCorrupt d x perm betas select i = x i := by
  unfold mixupCorrupt
  rw [h]
  split
  · funext j
    ring
  · rfl

/-- Witness for C4: a concrete selected sample fixed by the permutation,
with coefficient `1/3`, is left unchanged. -/
theorem mixup_identity_perm_fixpoint_witness :
    mixupCorrupt 1 (fun _ _ => (7 : ℚ)) (fun a => a) (fun _ => 1 / 3)
      (fun _ => true) 0 = fun _ => (7 : ℚ) :=
  mixup_identity_perm_fixpoint 1 (fun _ _ => (7 : ℚ)) (fun a => a)
    (fun _ => 1 / 3) (fun _ => true) 0 rfl

/-- The evaluation repeat loop (Train.py lines 724-732): `for rep in
range(3)`, at `rep == 0` the accumulator is set to that repeat's forward
output, afterwards the outputs are added on. -/
def repLoop (d : ℕ) (f : ℕ → Fin d → ℚ) : Fin d → ℚ :=
  (List.range 3).foldl (fun acc rep => if rep = 0 then f rep else acc + f rep)
    (fun _ => 0)

/-- The combined evaluation embedding (Train.py lines 733-734): the
accumulated repeat outputs divided by 3. -/
def evalCombined (d : ℕ) (f : ℕ → Fin d → ℚ) : Fin d → ℚ :=
  fun j => repLoop d f j / 3

/-- The test contrastive loss term is computed from the combined
embedding (Train.py lines 736-758): whatever loss functional `L` the
pass applies, it is applied to `evalCombined`. -/
def testClipLossTerm (d : ℕ) (L : (Fin d → ℚ) → ℚ) (f : ℕ → Fin d → ℚ) : ℚ :=
  L (evalCombined d f)

/-- C5: the combined evaluation embedding is the exact arithmetic mean
of the three per-repeat forward outputs, `(a + b + c) / 3`, and the test
loss terms are computed from exactly this averaged value. -/
theorem eval_repeat_average (d : ℕ) (f : ℕ → Fin d → ℚ)
    (L : (Fin d → ℚ) → ℚ) :
    evalCombined d f = (fun j => (f 0 j + f 1 j + f 2 j) / 3) ∧
    testClipLossTerm d L f = L (fun j => (f 0 j + f 1 j + f 2 j) / 3) := by
  have h : evalCombined d f = fun j => (f 0 j + f 1 j + f 2 j) / 3 := by
    funext j
    show ((List.range 3).foldl
      (fun acc rep => if rep = 0 then f rep else acc + f rep) (fun _ => 0)) j / 3 = _
    norm_num [List.range_succ, Pi.add_apply]
  exact ⟨h, by rw [testClipLossTerm, h]⟩

/-- The test repeat grouping (Train.py lines 701-706): `locs` are the
trial positions showing a given image; one presentation is tripled, of
two presentations the first is reused as the third slot, three are used
as they are; the assert demands exactly 3 slots, any other count fails
(modelled as `none`). -/
def padRepeats (locs : List ℕ) : Option (List ℕ) :=
  let locs2 :=
    if locs.length = 1 then locs ++ locs ++ locs
    else if locs.length = 2 then (locs ++ locs).take 3
    else locs
  if locs2.length = 3 then some locs2 else none

/-- C6: whenever the repeat grouping succeeds it retains exactly 3 (so
at most 3) repeat slots; a single presentation fills all 3 slots, of two
presentations the first is reused for the third slot, and three
presentations are each used once. -/
theorem test_repeat_padding (locs out : List ℕ)
    (h : padRepeats locs = some out) :
    out.length = 3 ∧
    (∀ a, locs = [a] → out = [a, a, a]) ∧
    (∀ a b, locs = [a, b] → out = [a, b, a]) ∧
    (∀ a b c, locs = [a, b, c] → out = [a, b, c]) := by
  refine ⟨?_, ?_, ?_, ?_⟩
  · have key : ∀ l2 : List ℕ,
        (if l2.length = 3 then some l2 else none) = some out →
        out.length = 3 := by
      intro l2 hl2
      split at hl2
      · cases hl2
        assumption
      · cases hl2
    unfold padRepeats at h
    exact key _ h
  · rintro a rfl
    simpa [padRepeats] using h.symm
  · rintro a b rfl
    simpa [padRepeats] using h.symm
  · rintro a b c rfl
    simpa [padRepeats] using h.symm

/-- Witness for C6: two presentations at trial positions `[4, 9]` are
padded to the 3 slots `[4, 9, 4]`. -/
theorem test_repeat_padding_witness :
    ([4, 9, 4] : List ℕ).length = 3 ∧
    (∀ a, ([4, 9] : List ℕ) = [a] → ([4, 9, 4] : List ℕ) = [a, a, a]) ∧
    (∀ a b, ([4, 9] : List ℕ) = [a, b] → ([4, 9, 4] : List ℕ) = [a, b, a]) ∧
    (∀ a b c, ([4, 9] : List ℕ) = [a, b, c] → ([4, 9, 4] : List ℕ) = [a, b, c]) :=
  test_repeat_padding [4, 9] [4, 9, 4] (by decide)

/-- The two contrastive loss formulations dispatched by the training
iteration (Train.py lines 612-624): the mixup-aware noise-contrastive
call `utils.mixco_nce(..., temp, perm, betas, select)` and the symmetric
soft-label cross-entropy call `utils.soft_clip_loss(..., temp)`,
recorded with the arguments the call site passes. -/
inductive ClipLossForm where
  | mixcoNCE (temp : ℚ) (perm : List ℕ) (betas : List ℚ) (select : List Bool)
  | softClipLoss (temp : ℚ)
deriving DecidableEq

/-- `int(mixup_pct * num_epochs)` (Train.py lines 559, 586, 613, 620):
Python `int()` truncation, which for the non-negative product equals the
floor. -/
def mixupBoundary (mixup_pct : ℚ) (num_epochs : ℕ) : ℕ :=
  (⌊mixup_pct * num_epochs⌋).toNat

/-- The contrastive-loss dispatch (Train.py lines 613-624): below the
boundary epoch, `mixco_nce` with fixed temperature `0.006` and that
iteration's corruption descriptors; from the boundary on,
`soft_clip_loss` with the annealed temperature indexed by
`epoch - boundary`. -/
def clipLossSelect (softTemps : ℕ → ℚ) (boundary epoch : ℕ)
    (perm : List ℕ) (betas : List ℚ) (select : List Bool) : ClipLossForm :=
  if epoch < boundary then ClipLossForm.mixcoNCE (6 / 1000) perm betas select
  else ClipLossForm.softClipLoss (softTemps (epoch - boundary))

/-- C2: the contrastive loss is selected by a hard switch at
`floor(mixup_pct * num_epochs)` — the boundary is that floor; every
epoch strictly below it uses the mixup noise-contrastive formulation
with temperature 0.006 and the iteration's corruption descriptors, every
epoch at or above it uses the soft-label formulation with the annealed
temperature for that epoch; in particular the epoch just before the
boundary is mixup and the boundary epoch itself is soft.  No epoch mixes
the two. -/
theorem contrastive_regime_switch (mixup_pct : ℚ) (num_epochs : ℕ)
    (hpct : 0 ≤ mixup_pct) (softTemps : ℕ → ℚ) (perm : List ℕ)
    (betas : List ℚ) (select : List Bool) :
    ((mixupBoundary mixup_pct num_epochs : ℤ) = ⌊mixup_pct * num_epochs⌋) ∧
    (∀ e, e < mixupBoundary mixup_pct num_epochs →
      clipLossSelect softTemps (mixupBoundary mixup_pct num_epochs) e
          perm betas select =
        ClipLossForm.mixcoNCE (6 / 1000) perm betas select) ∧
    (∀ e, mixupBoundary mixup_pct num_epochs ≤ e →
      clipLossSelect softTemps (mixupBoundary mixup_pct num_epochs) e
          perm betas select =
        ClipLossForm.softClipLoss
          (softTemps (e - mixupBoundary mixup_pct num_epochs))) ∧
    (1 ≤ mixupBoundary mixup_pct num_epochs →
      clipLossSelect softTemps (mixupBoundary mixup_pct num_epochs)
          (mixupBoundary mixup_pct num_epochs - 1) perm betas select =
        ClipLossForm.mixcoNCE (6 / 1000) perm betas select) ∧
    clipLossSelect softTemps (mixupBoundary mixup_pct num_epochs)
        (mixupBoundary mixup_pct num_epochs) perm betas select =
      ClipLossForm.softClipLoss (softTemps 0) := by
  have hmix : ∀ e, e < mixupBoundary mixup_pct num_epochs →
      clipLossSelect softTemps (mixupBoundary mixup_pct num_epochs) e
          perm betas select =
        ClipLossForm.mixcoNCE (6 / 1000) perm betas select := by
    intro e he
    unfold clipLossSelect
    rw [if_pos he]
  have hsoft : ∀ e, mixupBoundary mixup_pct num_epochs ≤ e →
      clipLossSelect softTemps (mixupBoundary mixup_pct num_epochs) e
          perm betas select =
        ClipLossForm.softClipLoss
          (softTemps (e - mixupBoundary mixup_pct num_epochs)) := by
    intro e he
    unfold clipLossSelect
    rw [if_neg (not_lt.mpr he)]
  refine ⟨?_, hmix, hsoft, ?_, ?_⟩
  · unfold mixupBoundary
    exact Int.toNat_of_nonneg
      (Int.floor_nonneg.mpr (mul_nonneg hpct (Nat.cast_nonneg _)))
  · intro h1
    exact hmix _ (by omega)
  · rw [hsoft _ le_rfl, Nat.sub_self]

/-- Witness for C2 at `mixup_pct = 1/3`, `num_epochs = 6` (boundary 2):
epoch 1 uses the mixup formulation, epoch 2 the soft formulation at the
first annealed temperature. -/
theorem contrastive_regime_switch_witness :
    mixupBoundary (1 / 3) 6 = 2 ∧
    clipLossSelect (fun k => 4 / 1000 + k) (mixupBoundary (1 / 3) 6) 1
        [1, 0] [1 / 2, 1 / 4] [true, false] =
      ClipLossForm.mixcoNCE (6 / 1000) [1, 0] [1 / 2, 1 / 4] [true, false] ∧
    clipLossSelect (fun k => 4 / 1000 + k) (mixupBoundary (1 / 3) 6) 2
        [1, 0] [1 / 2, 1 / 4] [true, false] =
      ClipLossForm.softClipLoss (4 / 1000 + 0) := by
  have hb : mixupBoundary (1 / 3) 6 = 2 := by
    have hfl : (⌊(1 / 3 : ℚ) * ((6 : ℕ) : ℚ)⌋ : ℤ) = 2 := by norm_num
    unfold mixupBoundary
    rw [hfl]
    rfl
  have h := contrastive_regime_switch (1 / 3) 6 (by norm_num)
    (fun k => 4 / 1000 + k) [1, 0] [1 / 2, 1 / 4] [true, false]
  refine ⟨hb, ?_, ?_⟩
  · exact h.2.1 1 (by omega)
  · have h2 := h.2.2.1 2 (by omega)
    rw [h2, hb]
    norm_num

/-- The `test_image is None` guard of the evaluation loop (Train.py
lines 694-712): the per-batch evaluation step builds the test set from
the incoming batch only when the state is still `None`, otherwise it
keeps the existing set; either way the step evaluates the current set.
Returns (state after the batch, set evaluated on this batch). -/
def evalTestStep {γ δ : Type} (buildT : γ → δ) (st : Option δ) (b : γ) :
    Option δ × δ :=
  match st with
  | none => (some (buildT b), buildT b)
  | some t => (some t, t)

/-- The evaluation loop over a sequence of test batches (Train.py line
689), threading the `test_image`/`test_voxel` state; returns the final
state and the list of sets evaluated, one per batch. -/
def evalTestRun {γ δ : Type} (buildT : γ → δ) :
    Option δ → List γ → Option δ × List δ
  | st, [] => (st, [])
  | st, b :: bs =>
    let step := evalTestStep buildT st b
    let rest := evalTestRun buildT step.1 bs
    (rest.1, step.2 :: rest.2)

theorem evalTestRun_some {γ δ : Type} (buildT : γ → δ) (t : δ)
    (bs : List γ) :
    evalTestRun buildT (some t) bs = (some t, List.replicate bs.length t) := by
  induction bs with
  | nil => rfl
  | cons b bs ih =>
    rw [evalTestRun]
    simp [evalTestStep, ih, List.replicate_succ]

/-- C10: the evaluation test set is constructed at most once per run —
starting from the initial `None` state, it is built from the first test
batch only; every later batch of that epoch and every batch of any
subsequent epoch (which starts from the carried-over state) evaluates
exactly that same set, and no batch ever adds further samples. -/
theorem test_set_built_once {γ δ : Type} (buildT : γ → δ) (b : γ)
    (bs cs : List γ) :
    (evalTestRun buildT none (b :: bs)).1 = some (buildT b) ∧
    (evalTestRun buildT none (b :: bs)).2 =
      List.replicate (bs.length + 1) (buildT b) ∧
    (evalTestRun buildT (some (buildT b)) cs).1 = some (buildT b) ∧
    (evalTestRun buildT (some (buildT b)) cs).2 =
      List.replicate cs.length (buildT b) := by
  have hrun : evalTestRun buildT none (b :: bs) =
      (some (buildT b), buildT b :: List.replicate bs.length (buildT b)) := by
    rw [evalTestRun]
    simp [evalTestStep, evalTestRun_some]
  refine ⟨by rw [hrun], ?_, ?_, ?_⟩
  · rw [hrun, List.replicate_succ]
  · rw [evalTestRun_some]
  · rw [evalTestRun_some]

/-- A computed total loss value: finite, or non-finite (NaN/inf). -/
inductive LossVal where
  | fin (q : ℚ)
  | nonfinite
deriving DecidableEq

/-- Modelled from the spec: `utils.check_loss` is not under src/ (only
its call sites at Train.py lines 674 and 775 are).  §7: "non-finite
total loss — step is aborted (no optimizer update for that iteration)
and must be surfaced loudly"; since the step code follows the call
unconditionally, aborting it can only mean raising, modelled as
`Except.error`. -/
def check_loss : LossVal → Except String Unit
  | LossVal.nonfinite => Except.error "NaN loss"
  | LossVal.fin _ => Except.ok ()

/-- The training iteration sequence (Train.py lines 571-682): each
iteration computes its total loss, calls `check_loss`, then performs
backward and `optimizer.step()`.  There is no exception handler anywhere
in the loop, so a raise ends it.  Given the per-iteration loss values,
returns (number of optimizer steps performed, the raised error if
any). -/
def trainIterations : ℕ → List LossVal → ℕ × Option String
  | steps, [] => (steps, none)
  | steps, l :: rest =>
    match check_loss l with
    | Except.error e => (steps, some e)
    | Except.ok _ => trainIterations (steps + 1) rest

/-- C7 counterexample: run three iterations whose losses are finite,
non-finite, finite.  The claim predicts the run continues past the
aborted iteration and performs the optimizer updates of iterations 0 and
2 (two steps, no run-level error); the code performs only one step and
terminates the run with the raised error. -/
theorem nonfinite_loss_aborts_run_cex :
    trainIterations 0 [LossVal.fin 1, LossVal.nonfinite, LossVal.fin 2] =
      (1, some "NaN loss") ∧
    ¬ ((trainIterations 0
          [LossVal.fin 1, LossVal.nonfinite, LossVal.fin 2]).1 = 2 ∧
        (trainIterations 0
          [LossVal.fin 1, LossVal.nonfinite, LossVal.fin 2]).2 = none) := by
  refine ⟨by decide, by decide⟩

/-- C7 amended: if the total loss of an iteration is non-finite, the
step is aborted before that iteration's optimizer update and the
condition is surfaced loudly (an error is raised) — but the raise
propagates uncaught, so the whole run terminates: no subsequent
iteration executes and only the updates of the iterations before the
non-finite one have been performed. -/
theorem nonfinite_loss_stops_training (pre post : List LossVal)
    (steps0 : ℕ) (hpre : ∀ l ∈ pre, l ≠ LossVal.nonfinite) :
    trainIterations steps0 (pre ++ LossVal.nonfinite :: post) =
      (steps0 + pre.length, some "NaN loss") := by
  induction pre generalizing steps0 with
  | nil => rfl
  | cons l pre ih =>
    have hl : l ≠ LossVal.nonfinite := hpre l (List.mem_cons_self _ _)
    rw [List.cons_append, trainIterations]
    match l, hl with
    | LossVal.fin q, _ =>
      rw [show check_loss (LossVal.fin q) = Except.ok () from rfl]
      rw [ih (steps0 + 1) (fun x hx => hpre x (List.mem_cons_of_mem _ hx))]
      simp [List.length_cons]
      omega

/-- Witness for C7-amended: one finite iteration, then a non-finite one,
then one more scheduled iteration — exactly one optimizer step happens
and the error surfaces. -/
theorem nonfinite_loss_stops_training_witness :
    trainIterations 0
        ([LossVal.fin 1] ++ LossVal.nonfinite :: [LossVal.fin 2]) =
      (0 + ([LossVal.fin 1] : List LossVal).length, some "NaN loss") :=
  nonfinite_loss_stops_training [LossVal.fin 1] [LossVal.fin 2] 0 (by decide)

/-- The mutable training-loop state that checkpointing covers: epoch
counter, model state dict (named parameters), optimizer state (its
learning rate as the observable part), scheduler state, and the three
histories (Train.py lines 457-465 and 490-491). -/
structure TrainState where
  epoch : ℕ
  modelParams : List (String × ℚ)
  optimizerLR : ℚ
  schedulerState : ℚ
  trainLosses : List ℚ
  testLosses : List ℚ
  lrHistory : List ℚ
deriving DecidableEq

/-- One serialized checkpoint, the dictionary written by `torch.save`
(Train.py lines 457-465). -/
structure Checkpoint where
  epoch : ℕ
  model_state_dict : List (String × ℚ)
  optimizer_state_dict : ℚ
  lr_scheduler : ℚ
  train_losses : List ℚ
  test_losses : List ℚ
  lrs : List ℚ
deriving DecidableEq

/-- The checkpoint directory, a map file name to contents; a fresh write
shadows earlier writes to the same name. -/
def CkptStore : Type := List (String × Checkpoint)

/-- `save_ckpt(tag)` (Train.py lines 453-466): serializes the training
state as one unit into the file `{tag}.pth` (on the main process, which
this single-process model is). -/
def save_ckpt (store : CkptStore) (tag : String) (st : TrainState) :
    CkptStore :=
  (tag ++ ".pth",
    ⟨st.epoch, st.modelParams, st.optimizerLR, st.schedulerState,
      st.trainLosses, st.testLosses, st.lrHistory⟩) :: store

/-- `load_ckpt(tag, load_lr, load_optimizer, load_epoch, strict,
multisubj_loading)` (Train.py lines 468-483): reads the file
`last.pth` — the `tag` argument only appears in the log message, line
471 hardcodes `outdir + '/last.pth'` — optionally drops the
incompatible ridge weight, always restores model weights, and restores
epoch / optimizer / scheduler according to the flags.  `none` models the
raise when the file is absent. -/
def load_ckpt (store : CkptStore) (tag : String)
    (load_lr load_optimizer load_epoch strict multisubj_loading : Bool)
    (st : TrainState) : Option TrainState :=
  match List.lookup ("last" ++ ".pth") store with
  | none => none
  | some ck =>
    let sd := if multisubj_loading then
        ck.model_state_dict.filter (fun kv => kv.1 != "ridge.linears.0.weight")
      else ck.model_state_dict
    some { st with
      modelParams := sd
      epoch := if load_epoch then ck.epoch else st.epoch
      optimizerLR := if load_optimizer then ck.optimizer_state_dict
        else st.optimizerLR
      schedulerState := if load_lr then ck.lr_scheduler
        else st.schedulerState }

/-- C3 (code bug): `load_ckpt` does not read back the checkpoint
identified by the given tag.  Concretely: with `last.pth` holding an
older state (epoch 3, lr 1, weight `w = 1`), saving the current state
(epoch 7, lr 3, weight `w = 2`) under tag `"ckpt_5"` and then loading
tag `"ckpt_5"` with every restoration flag true yields the `last.pth`
state — epoch 3, lr 1, weight 1 — not the state that was just saved,
because line 471 hardcodes `last.pth`. -/
theorem load_ckpt_ignores_tag :
    load_ckpt
        (save_ckpt [("last" ++ ".pth",
          ⟨3, [("w", 1)], 1, 5, [], [], []⟩)] "ckpt_5"
          ⟨7, [("w", 2)], 3, 6, [], [], []⟩)
        "ckpt_5" true true true true false
        ⟨7, [("w", 2)], 3, 6, [], [], []⟩ =
      some ⟨3, [("w", 1)], 1, 5, [], [], []⟩ ∧
    (3 : ℕ) ≠ 7 ∧ ((1 : ℚ) ≠ 3) ∧
      ([("w", (1 : ℚ))] ≠ [("w", (2 : ℚ))]) := by
  refine ⟨by decide, by decide, by decide, by decide⟩

end MindEye2
